import Mathlib

/-!
Verification of the one-dimensional wave-splitting model of `millipede_bar.py`.

The source operates on pandas/numpy arrays of IEEE doubles.  The embedding
models amplitudes and times as real numbers (`ℝ`) and arrays as `List ℝ`.
Missing/NaN input fields are modelled as `Option ℝ` (a `none` record is what
`df.dropna` discards).  Python exceptions raised by key lookup are modelled
with `Except`.  Total real division stands in for float division: where the
source would produce `inf`/`NaN` (division by zero, `sqrt` of a negative)
the embedding produces the Lean junk value of the same total operation; the
error-channel facts proved below never depend on those junk values.
-/

namespace MillipedeBar

/-- Consecutive differences of a list, `np.diff`: `diff[i] = l[i+1] - l[i]`. -/
def listDiff (l : List ℝ) : List ℝ :=
  (l.zip l.tail).map fun p => p.2 - p.1

/-- Median of a list, `np.median`: sort, take the middle element (odd length)
or the mean of the two middle elements (even length).  `np.median` of an
empty array is NaN; here the junk value is `0`.  Never unfolded at an input
by the theorems below. -/
noncomputable def npMedian (l : List ℝ) : ℝ :=
  let s := l.mergeSort fun a b => decide (a ≤ b)
  if s.length % 2 = 1 then s.getD (s.length / 2) 0
  else (s.getD (s.length / 2 - 1) 0 + s.getD (s.length / 2) 0) / 2

/-- Round a real to the nearest integer, ties to even — the rounding used by
`np.around` / `np.rint`. -/
noncomputable def roundHalfEven (x : ℝ) : ℤ :=
  if x - ⌊x⌋ < 1 / 2 then ⌊x⌋
  else if 1 / 2 < x - ⌊x⌋ then ⌊x⌋ + 1
  else if Even ⌊x⌋ then ⌊x⌋ else ⌊x⌋ + 1

/-- `np.around(x, 9)`: scale by `10^9`, round half-to-even, scale back. -/
noncomputable def around9 (x : ℝ) : ℝ :=
  (roundHalfEven (x * 1e9) : ℝ) / 1e9

/-- Full linear convolution `np.convolve(a, b)` (mode "full"):
`out[i] = ∑_j a[j] * b[i-j]`, output length `a.length + b.length - 1`.
Out-of-range accesses contribute `0` via the `getD` default. -/
noncomputable def convolve (a b : List ℝ) : List ℝ :=
  (List.range (a.length + b.length - 1)).map fun i =>
    ∑ j ∈ Finset.range (i + 1), a.getD j 0 * b.getD (i - j) 0

/-- The arrays computed by `model_1d` before the final pandas merge. -/
structure ModelOutput where
  dt : ℝ
  delay : ℝ
  kernel : List ℝ
  incidentClamped : List ℝ
  transmitted : List ℝ
  reflected : List ℝ
  timeOutput : List ℝ

/-- Body of `model_1d` once all parameters have been read: wave speed,
characteristic time, sample interval, sign clamp, delay quantization,
kernel, convolution (negated, normalized by the kernel sum, truncated to
the incident length), reflected wave by superposition, and the rounded
output time axis. -/
noncomputable def model_1d_core (time incident : List ℝ)
    (elastic_modulus density junction_length gage_distance : ℝ) : ModelOutput :=
  let c := Real.sqrt (elastic_modulus / density)
  let t_ch := junction_length / c
  let dt := around9 (npMedian (listDiff time))
  let inc := incident.map fun x => if 0 < x then 0 else x
  let delay : ℝ :=
    if gage_distance = 0 then 0
    else
      let d := around9 ((2 * gage_distance + junction_length) / c)
      (⌊(d * 1e9) / (dt * 1e9)⌋ : ℝ) * dt
  let kernel := time.map fun t => Real.exp (-t / t_ch) / t_ch
  let transmitted :=
    ((convolve kernel inc).map fun x => -1 * x / kernel.sum).take inc.length
  let reflected := (inc.zip transmitted).map fun p => -(p.1 + p.2)
  let time_output := time.map fun t => around9 (t + delay)
  ⟨dt, delay, kernel, inc, transmitted, reflected, time_output⟩

/-- A Python `KeyError` raised while reading the parameter mapping. -/
inductive ModelError where
  | missingKey : String → ModelError
deriving DecidableEq

/-- The parameter fields `model_1d` reads, each possibly absent.  The source
reads them through the nested keys `material_properties.elastic_modulus`,
`material_properties.density`, `geometric_parameters.junction_length` and
`geometric_parameters.gage_distance`; the two sub-mappings are flattened
here, keeping the source's access order. -/
structure ExperimentalParameters where
  elastic_modulus : Option ℝ
  density : Option ℝ
  junction_length : Option ℝ
  gage_distance : Option ℝ

/-- `model_1d`: reading an absent required key raises `KeyError` (the fields
are read in source order: `elastic_modulus`, `density`, `junction_length`);
an absent `gage_distance` is caught by the source's `try/except KeyError`
and replaced with `0.0`. -/
noncomputable def model_1d (time incident : List ℝ) (p : ExperimentalParameters) :
    Except ModelError ModelOutput :=
  match p.elastic_modulus with
  | none => .error (.missingKey "elastic_modulus")
  | some elastic_modulus =>
    match p.density with
    | none => .error (.missingKey "density")
    | some density =>
      match p.junction_length with
      | none => .error (.missingKey "junction_length")
      | some junction_length =>
        .ok (model_1d_core time incident elastic_modulus density junction_length
          (p.gage_distance.getD 0))

/-- `get_incident_data` after the CSV has been parsed into records of two
optional floats: drop any record with a missing field (`df.dropna`), compute
`max_signal = max(|amplitude|)` (Python `max` over the list of absolute
values; the fold's base `0` coincides with it on the nonempty lists of
nonnegative values the source feeds it), and divide every amplitude by
`max_signal`.  The source performs no zero check before dividing. -/
noncomputable def get_incident_data (raw : List (Option ℝ × Option ℝ)) :
    List (ℝ × ℝ) :=
  let cleaned := raw.filterMap fun r =>
    match r with
    | (some t, some a) => some (t, a)
    | _ => none
  let max_signal := (cleaned.map fun r => |r.2|).foldr max 0
  cleaned.map fun r => (r.1, r.2 / max_signal)

section Helpers

/-- The clamped incident array the model convolves. -/
lemma core_incidentClamped (time incident : List ℝ) (E ρ L g : ℝ) :
    (model_1d_core time incident E ρ L g).incidentClamped
      = incident.map fun x => if 0 < x then 0 else x := rfl

/-- The kernel array `exp(-time/t_ch)/t_ch`. -/
lemma core_kernel (time incident : List ℝ) (E ρ L g : ℝ) :
    (model_1d_core time incident E ρ L g).kernel
      = time.map fun t =>
          Real.exp (-t / (L / Real.sqrt (E / ρ))) / (L / Real.sqrt (E / ρ)) := rfl

/-- The transmitted array: negated, kernel-sum-normalized convolution,
truncated to the incident length. -/
lemma core_transmitted (time incident : List ℝ) (E ρ L g : ℝ) :
    (model_1d_core time incident E ρ L g).transmitted
      = ((convolve (model_1d_core time incident E ρ L g).kernel
            (model_1d_core time incident E ρ L g).incidentClamped).map
          fun x => -1 * x / (model_1d_core time incident E ρ L g).kernel.sum).take
          (model_1d_core time incident E ρ L g).incidentClamped.length := rfl

/-- The reflected array `-(incident + transmitted)` (elementwise). -/
lemma core_reflected (time incident : List ℝ) (E ρ L g : ℝ) :
    (model_1d_core time incident E ρ L g).reflected
      = ((model_1d_core time incident E ρ L g).incidentClamped.zip
          (model_1d_core time incident E ρ L g).transmitted).map
          fun p => -(p.1 + p.2) := rfl

/-- The output time axis `around(time + delay, 9)`. -/
lemma core_timeOutput (time incident : List ℝ) (E ρ L g : ℝ) :
    (model_1d_core time incident E ρ L g).timeOutput
      = time.map fun t => around9 (t + (model_1d_core time incident E ρ L g).delay) := rfl

/-- Length of the full convolution. -/
lemma convolve_length (a b : List ℝ) :
    (convolve a b).length = a.length + b.length - 1 := by
  simp [convolve]

/-- Elementwise access into the `-(a + b)` zip-map used for the reflected wave. -/
lemma getD_zip_neg_add (a b : List ℝ) (i : ℕ) (ha : i < a.length) (hb : i < b.length) :
    ((a.zip b).map fun p : ℝ × ℝ => -(p.1 + p.2)).getD i 0
      = -(a.getD i 0 + b.getD i 0) := by
  rw [List.getD_eq_getElem?_getD, List.getElem?_map, List.zip, List.getElem?_zipWith,
    List.getElem?_eq_getElem ha, List.getElem?_eq_getElem hb,
    List.getD_eq_getElem?_getD, List.getD_eq_getElem?_getD,
    List.getElem?_eq_getElem ha, List.getElem?_eq_getElem hb]
  rfl

/-- A `getD` access past the end of a list returns the default. -/
lemma getD_of_length_le (l : List ℝ) (i : ℕ) (h : l.length ≤ i) :
    l.getD i 0 = 0 := by
  rw [List.getD_eq_getElem?_getD, List.getElem?_eq_none h]
  rfl

end Helpers

/-- C1: in the wave-splitting model, at every index `i`,
`reflected[i] + transmitted[i] + incident[i] = 0` where `incident` is the
sign-corrected incident entering the convolution — the reflected wave is
computed as `reflected = -(incident + transmitted)`. -/
theorem conservation (time incident : List ℝ) (E ρ L g : ℝ)
    (hlen : time.length = incident.length) (i : ℕ) :
    (model_1d_core time incident E ρ L g).reflected.getD i 0
      + (model_1d_core time incident E ρ L g).transmitted.getD i 0
      + (model_1d_core time incident E ρ L g).incidentClamped.getD i 0 = 0 := by
  have hinc : (model_1d_core time incident E ρ L g).incidentClamped.length
      = incident.length := by
    rw [core_incidentClamped]; simp
  have htr : (model_1d_core time incident E ρ L g).transmitted.length
      = incident.length := by
    rw [core_transmitted]
    simp [convolve_length, core_kernel, core_incidentClamped, hlen]
    omega
  have hrefl : (model_1d_core time incident E ρ L g).reflected.length
      = incident.length := by
    rw [core_reflected]
    simp [hinc, htr]
  by_cases hi : i < incident.length
  · rw [core_reflected, getD_zip_neg_add _ _ i (by rw [hinc]; exact hi)
      (by rw [htr]; exact hi)]
    ring
  · push_neg at hi
    rw [getD_of_length_le _ _ (by omega), getD_of_length_le _ _ (by omega),
      getD_of_length_le _ _ (by omega)]
    norm_num

/-- Witness for C1 at a concrete two-sample input. -/
theorem conservation_witness :
    (model_1d_core [0, 1e-6] [-1, -1] 7e10 2700 0.5 0).reflected.getD 0 0
      + (model_1d_core [0, 1e-6] [-1, -1] 7e10 2700 0.5 0).transmitted.getD 0 0
      + (model_1d_core [0, 1e-6] [-1, -1] 7e10 2700 0.5 0).incidentClamped.getD 0 0
      = 0 :=
  conservation [0, 1e-6] [-1, -1] 7e10 2700 0.5 0 rfl 0

/-- C4: the transmitted array has exactly the incident series' length, the
full convolution having length `2N - 1` before truncation to its first `N`
samples. -/
theorem transmitted_length (time incident : List ℝ) (E ρ L g : ℝ)
    (hlen : time.length = incident.length) :
    (model_1d_core time incident E ρ L g).transmitted.length = incident.length ∧
    (convolve (model_1d_core time incident E ρ L g).kernel
        (model_1d_core time incident E ρ L g).incidentClamped).length
      = 2 * incident.length - 1 := by
  constructor
  · rw [core_transmitted]
    simp [convolve_length, core_kernel, core_incidentClamped, hlen]
    omega
  · rw [convolve_length, core_kernel, core_incidentClamped]
    simp [hlen]
    omega

/-- Witness for C4 at a concrete two-sample input. -/
theorem transmitted_length_witness :
    (model_1d_core [0, 1e-6] [-1, -1] 7e10 2700 0.5 0).transmitted.length = 2 ∧
    (convolve (model_1d_core [0, 1e-6] [-1, -1] 7e10 2700 0.5 0).kernel
        (model_1d_core [0, 1e-6] [-1, -1] 7e10 2700 0.5 0).incidentClamped).length
      = 3 := by
  have h := transmitted_length [0, 1e-6] [-1, -1] 7e10 2700 0.5 0 rfl
  simpa using h

/-- C5: the value entered into the convolution is `0` at every index where
the normalized incident amplitude is strictly positive, and is the incident
amplitude itself where that amplitude is `≤ 0`. -/
theorem sign_clamp (time incident : List ℝ) (E ρ L g : ℝ) (i : ℕ) :
    (0 < incident.getD i 0 →
      (model_1d_core time incident E ρ L g).incidentClamped.getD i 0 = 0) ∧
    (incident.getD i 0 ≤ 0 →
      (model_1d_core time incident E ρ L g).incidentClamped.getD i 0
        = incident.getD i 0) := by
  rw [core_incidentClamped]
  rcases h : incident[i]? with _ | a
  · simp only [List.getD_eq_getElem?_getD, List.getElem?_map, h, Option.map_none',
      Option.getD_none]
    norm_num
  · simp only [List.getD_eq_getElem?_getD, List.getElem?_map, h, Option.map_some',
      Option.getD_some]
    constructor
    · intro ha
      rw [if_pos ha]
    · intro ha
      rw [if_neg (not_lt.mpr ha)]

/-- Witness for C5: a strictly positive sample is clamped to zero. -/
theorem sign_clamp_witness :
    (0:ℝ) < 1 ∧
    (model_1d_core [0, 1e-6] [1, -2] 7e10 2700 0.5 0).incidentClamped.getD 0 0 = 0 :=
  ⟨by norm_num,
    (sign_clamp [0, 1e-6] [1, -2] 7e10 2700 0.5 0 0).1 (by norm_num)⟩

/-- C8 (amended): reading an absent `elastic_modulus`, `density` or
`junction_length` fails with a missing-key error (for absent `density` the
error is the whole result, so no convolution output is produced), while an
absent `gage_distance` is not an error and behaves exactly as
`gage_distance = 0`; any present parameter values, positive or not, produce
a result rather than an error. -/
theorem missing_parameter (time incident : List ℝ) (E ρ L : ℝ) (d l gd : Option ℝ) :
    model_1d time incident ⟨none, d, l, gd⟩
      = .error (.missingKey "elastic_modulus") ∧
    model_1d time incident ⟨some E, none, l, gd⟩
      = .error (.missingKey "density") ∧
    model_1d time incident ⟨some E, some ρ, none, gd⟩
      = .error (.missingKey "junction_length") ∧
    (∃ o, model_1d time incident ⟨some E, some ρ, some L, none⟩ = .ok o) ∧
    model_1d time incident ⟨some E, some ρ, some L, none⟩
      = model_1d time incident ⟨some E, some ρ, some L, some 0⟩ :=
  ⟨rfl, rfl, rfl, ⟨_, rfl⟩, rfl⟩

/-- C8 counterexample: a non-positive `density` (here `-2700`) does not fail
with a missing-parameter error — the model still returns a result. -/
theorem missing_parameter_counterexample :
    (-2700 : ℝ) ≤ 0 ∧
    ∃ o, model_1d [0, 1e-6] [-1, -1]
        ⟨some 7e10, some (-2700), some 0.5, none⟩ = .ok o :=
  ⟨by norm_num, ⟨_, rfl⟩⟩

section MaxHelpers

/-- Every member of a list is bounded by the `foldr max 0` used for
`max_signal`. -/
lemma le_foldr_max (l : List ℝ) (x : ℝ) (hx : x ∈ l) : x ≤ l.foldr max 0 := by
  induction l with
  | nil => cases hx
  | cons a t ih =>
    rcases List.mem_cons.mp hx with h | h
    · subst h; exact le_max_left _ _
    · exact le_trans (ih h) (le_max_right _ _)

/-- Dividing every element by a nonnegative constant divides the
`foldr max 0` by that constant. -/
lemma foldr_max_div (l : List ℝ) (M : ℝ) (hM : 0 ≤ M) :
    ((l.map fun x => x / M).foldr max 0) = (l.foldr max 0) / M := by
  induction l with
  | nil => simp
  | cons a t ih => simp [ih, max_div_div_right hM]

end MaxHelpers

/-- C3: after Signal Preparation, the maximum absolute amplitude of the
normalized incident series is exactly `1`, provided some surviving record
has nonzero amplitude. -/
theorem normalization (raw : List (Option ℝ × Option ℝ)) (t a : ℝ)
    (hmem : (some t, some a) ∈ raw) (ha : a ≠ 0) :
    ((get_incident_data raw).map fun r => |r.2|).foldr max 0 = 1 := by
  simp only [get_incident_data]
  set cleaned := raw.filterMap fun r =>
    match r with
    | (some t, some a) => some (t, a)
    | _ => none with hcleaned
  set M := (cleaned.map fun r => |r.2|).foldr max 0 with hMdef
  have hmem2 : (t, a) ∈ cleaned := by
    rw [hcleaned]
    exact List.mem_filterMap.mpr ⟨(some t, some a), hmem, rfl⟩
  have hM0 : 0 < M :=
    lt_of_lt_of_le (abs_pos.mpr ha)
      (le_foldr_max _ _ (List.mem_map_of_mem (fun r => |r.2|) hmem2))
  have h1 : ((cleaned.map fun r => (r.1, r.2 / M)).map fun r => |r.2|)
      = (cleaned.map fun r => |r.2|).map fun x => x / M := by
    rw [List.map_map, List.map_map]
    apply List.map_congr_left
    intro r _
    simp only [Function.comp_apply]
    rw [abs_div, abs_of_nonneg hM0.le]
  rw [h1, foldr_max_div _ _ hM0.le, ← hMdef, div_self (ne_of_gt hM0)]

/-- Witness for C3 at a one-record input of amplitude `-2`. -/
theorem normalization_witness :
    ((get_incident_data [(some 0, some (-2))]).map fun r => |r.2|).foldr max 0 = 1 :=
  normalization [(some 0, some (-2))] 0 (-2) (by simp) (by norm_num)

/-- C9: on an all-zero incident array the source raises no error at all —
`max_signal` is `0` and every amplitude is divided by zero, silently
producing non-finite values (NaN in the source, the junk value `0` of total
real division here) instead of the `DegenerateSignal` error the spec
prescribes. -/
theorem degenerate_signal_no_error :
    get_incident_data [(some 0, some 0), (some 1e-6, some 0)]
      = [(0, 0), (1e-6, 0)] := by
  simp [get_incident_data]

section DelayHelpers

/-- The delay expression of the model: `0` when the gage distance is `0`,
otherwise the rounded round-trip time floor-quantized to a multiple of the
sample interval by the scaled floor division of the source. -/
lemma core_delay (time incident : List ℝ) (E ρ L g : ℝ) :
    (model_1d_core time incident E ρ L g).delay
      = if g = 0 then 0
        else (⌊(around9 ((2 * g + L) / Real.sqrt (E / ρ)) * 1e9)
            / ((model_1d_core time incident E ρ L g).dt * 1e9)⌋ : ℝ)
          * (model_1d_core time incident E ρ L g).dt := rfl

/-- Rounding to nine decimals fixes any real whose product with `10^9` is an
integer. -/
lemma around9_eq_of_int (x : ℝ) (z : ℤ) (hz : x * 1e9 = (z : ℝ)) :
    around9 x = x := by
  have h1 : roundHalfEven ((z : ℝ)) = z := by
    unfold roundHalfEven
    rw [Int.floor_intCast, if_pos (by norm_num)]
  unfold around9
  rw [hz, h1, ← hz]
  exact mul_div_cancel_right₀ x (by norm_num)

/-- Rounding to nine decimals sends any real in `[0, 0.5e-9)` to `0`. -/
lemma around9_eq_zero_of_small (x : ℝ) (h0 : 0 ≤ x * 1e9) (h1 : x * 1e9 < 1 / 2) :
    around9 x = 0 := by
  have hf : ⌊x * 1e9⌋ = 0 := by
    rw [Int.floor_eq_iff]
    constructor
    · exact_mod_cast h0
    · push_cast
      linarith
  unfold around9 roundHalfEven
  rw [hf]
  push_cast
  rw [if_pos (by linarith)]
  norm_num

end DelayHelpers

/-- C6: for a strictly positive gage distance the computed delay equals
`⌊around9((2*gage_distance + junction_length)/c) / dt⌋ * dt` and is in
particular an exact integer multiple of the sample interval `dt`. -/
theorem delay_quantized (time incident : List ℝ) (E ρ L g : ℝ) (hg : 0 < g) :
    (model_1d_core time incident E ρ L g).delay
      = (⌊around9 ((2 * g + L) / Real.sqrt (E / ρ))
          / (model_1d_core time incident E ρ L g).dt⌋ : ℝ)
        * (model_1d_core time incident E ρ L g).dt ∧
    ∃ k : ℤ, (model_1d_core time incident E ρ L g).delay
        = (k : ℝ) * (model_1d_core time incident E ρ L g).dt := by
  rw [core_delay, if_neg (ne_of_gt hg),
    mul_div_mul_right _ _ (show (1e9 : ℝ) ≠ 0 by norm_num)]
  exact ⟨rfl, ⟨_, rfl⟩⟩

/-- Witness for C6 at a concrete positive gage distance. -/
theorem delay_quantized_witness :
    ∃ k : ℤ, (model_1d_core [0, 1e-6] [-1, -1] 7e10 2700 0.5 0.1).delay
        = (k : ℝ) * (model_1d_core [0, 1e-6] [-1, -1] 7e10 2700 0.5 0.1).dt :=
  (delay_quantized [0, 1e-6] [-1, -1] 7e10 2700 0.5 0.1 (by norm_num)).2

/-- C7 (amended): with `gage_distance = 0` the delay is `0` and the output
time axis is the original axis rounded to nine decimals, `around9`; it
equals the original axis exactly whenever every original time value is
fixed by that rounding (in particular whenever each time is an integer
multiple of `10^-9` seconds). -/
theorem zero_delay (time incident : List ℝ) (E ρ L : ℝ) :
    (model_1d_core time incident E ρ L 0).delay = 0 ∧
    (model_1d_core time incident E ρ L 0).timeOutput = time.map around9 ∧
    ((∀ t ∈ time, around9 t = t) →
      (model_1d_core time incident E ρ L 0).timeOutput = time) := by
  have hd : (model_1d_core time incident E ρ L 0).delay = 0 := by
    rw [core_delay, if_pos rfl]
  have ht : (model_1d_core time incident E ρ L 0).timeOutput = time.map around9 := by
    rw [core_timeOutput, hd]
    simp
  refine ⟨hd, ht, fun hfix => ?_⟩
  rw [ht]
  have h2 : time.map around9 = time.map id := List.map_congr_left (by simpa using hfix)
  simpa using h2

/-- Witness for C7 at a time axis of exact nanosecond multiples. -/
theorem zero_delay_witness :
    (model_1d_core [0, 1e-6] [-1, -1] 7e10 2700 0.5 0).timeOutput = [0, 1e-6] := by
  apply (zero_delay [0, 1e-6] [-1, -1] 7e10 2700 0.5).2.2
  intro t ht
  rcases List.mem_cons.mp ht with h | h
  · subst h
    exact around9_eq_of_int 0 0 (by norm_num)
  · rcases List.mem_singleton.mp h with rfl
    exact around9_eq_of_int _ 1000 (by norm_num)

/-- C7 counterexample: a time value finer than nine decimals is changed by
the output rounding even though the delay is `0`, so the output axis is not
the original axis. -/
theorem zero_delay_counterexample :
    (model_1d_core [0, 4e-10] [0, -1] 7e10 2700 0.5 0).timeOutput ≠ [0, 4e-10] := by
  have hd : (model_1d_core [0, 4e-10] [0, -1] 7e10 2700 0.5 0).delay = 0 := by
    rw [core_delay, if_pos rfl]
  have ht : (model_1d_core [0, 4e-10] [0, -1] 7e10 2700 0.5 0).timeOutput
      = [around9 (0 + 0), around9 (4e-10 + 0)] := by
    rw [core_timeOutput, hd]
    rfl
  have hz : around9 ((4e-10 : ℝ) + 0) = 0 := by
    rw [add_zero]
    exact around9_eq_zero_of_small _ (by norm_num) (by norm_num)
  intro hEq
  rw [ht, hz] at hEq
  have h2 : (0 : ℝ) = 4e-10 := (List.cons_eq_cons.mp (List.cons_eq_cons.mp hEq).2).1
  norm_num at h2

section ConvolutionHelpers

/-- Entry `i` of the full convolution. -/
lemma convolve_getD (a b : List ℝ) (i : ℕ) (hi : i < a.length + b.length - 1) :
    (convolve a b).getD i 0
      = ∑ j ∈ Finset.range (i + 1), a.getD j 0 * b.getD (i - j) 0 := by
  unfold convolve
  rw [List.getD_eq_getElem?_getD, List.getElem?_map, List.getElem?_range hi]
  rfl

/-- Entry `i` of a mapped-then-truncated list, for an in-range index. -/
lemma getD_map_take (l : List ℝ) (f : ℝ → ℝ) (n i : ℕ) (hn : i < n)
    (hl : i < l.length) :
    ((l.map f).take n).getD i 0 = f (l.getD i 0) := by
  rw [List.getD_eq_getElem?_getD, List.getElem?_take_of_lt hn, List.getElem?_map,
    List.getElem?_eq_getElem hl, List.getD_eq_getElem?_getD,
    List.getElem?_eq_getElem hl]
  rfl

/-- A `getD` access into a list of nonnegative entries is nonnegative. -/
lemma getD_nonneg (l : List ℝ) (h : ∀ x ∈ l, 0 ≤ x) (i : ℕ) : 0 ≤ l.getD i 0 := by
  rcases he : l[i]? with _ | a
  · simp [List.getD_eq_getElem?_getD, he]
  · rw [List.getD_eq_getElem?_getD, he]
    exact h a (List.getElem?_mem he)

/-- A `getD` access into a list of nonpositive entries is nonpositive. -/
lemma getD_nonpos (l : List ℝ) (h : ∀ x ∈ l, x ≤ 0) (i : ℕ) : l.getD i 0 ≤ 0 := by
  rcases he : l[i]? with _ | a
  · simp [List.getD_eq_getElem?_getD, he]
  · rw [List.getD_eq_getElem?_getD, he]
    exact h a (List.getElem?_mem he)

end ConvolutionHelpers

/-- C10: with positive elastic modulus, density and junction length every
sample of the transmitted array is nonnegative — the kernel entries
`exp(-t/t_ch)/t_ch` are positive, the clamped incident is everywhere
nonpositive, and the convolution is negated and divided by the nonnegative
kernel sum. -/
theorem transmitted_nonneg (time incident : List ℝ) (E ρ L g : ℝ)
    (hE : 0 < E) (hρ : 0 < ρ) (hL : 0 < L) (i : ℕ) :
    0 ≤ (model_1d_core time incident E ρ L g).transmitted.getD i 0 := by
  have htch : 0 < L / Real.sqrt (E / ρ) :=
    div_pos hL (Real.sqrt_pos.mpr (div_pos hE hρ))
  have hker : ∀ x ∈ (model_1d_core time incident E ρ L g).kernel, 0 ≤ x := by
    rw [core_kernel]
    intro x hx
    rcases List.mem_map.mp hx with ⟨s, _, rfl⟩
    exact (div_pos (Real.exp_pos _) htch).le
  have hinc : ∀ x ∈ (model_1d_core time incident E ρ L g).incidentClamped, x ≤ 0 := by
    rw [core_incidentClamped]
    intro x hx
    rcases List.mem_map.mp hx with ⟨s, _, rfl⟩
    by_cases hs : 0 < s
    · rw [if_pos hs]
    · rw [if_neg hs]
      exact le_of_not_lt hs
  have hS : 0 ≤ (model_1d_core time incident E ρ L g).kernel.sum :=
    List.sum_nonneg hker
  by_cases hi : i < (model_1d_core time incident E ρ L g).transmitted.length
  · have hlen : (model_1d_core time incident E ρ L g).transmitted.length
        = min (model_1d_core time incident E ρ L g).incidentClamped.length
            ((convolve (model_1d_core time incident E ρ L g).kernel
              (model_1d_core time incident E ρ L g).incidentClamped).length) := by
      rw [core_transmitted]
      simp [List.length_take]
    rw [hlen] at hi
    have h1 : i < (model_1d_core time incident E ρ L g).incidentClamped.length :=
      lt_of_lt_of_le hi (min_le_left _ _)
    have h2 : i < (convolve (model_1d_core time incident E ρ L g).kernel
        (model_1d_core time incident E ρ L g).incidentClamped).length :=
      lt_of_lt_of_le hi (min_le_right _ _)
    rw [core_transmitted, getD_map_take _ _ _ _ h1 h2,
      convolve_getD _ _ _ (by rw [← convolve_length]; exact h2)]
    apply div_nonneg _ hS
    have hsum : (∑ j ∈ Finset.range (i + 1),
        (model_1d_core time incident E ρ L g).kernel.getD j 0
          * (model_1d_core time incident E ρ L g).incidentClamped.getD (i - j) 0)
        ≤ 0 :=
      Finset.sum_nonpos fun j _ =>
        mul_nonpos_iff.mpr (Or.inl ⟨getD_nonneg _ hker j, getD_nonpos _ hinc (i - j)⟩)
    linarith
  · rw [getD_of_length_le _ _ (le_of_not_lt hi)]

/-- Witness for C10 at a concrete two-sample input. -/
theorem transmitted_nonneg_witness :
    0 ≤ (model_1d_core [0, 1e-6] [-1, -1] 7e10 2700 0.5 0).transmitted.getD 0 0 :=
  transmitted_nonneg [0, 1e-6] [-1, -1] 7e10 2700 0.5 0
    (by norm_num) (by norm_num) (by norm_num) 0

section SumHelpers

/-- A list sum written as a `Finset.range` sum of `getD` accesses. -/
lemma list_sum_eq_sum_getD (l : List ℝ) :
    l.sum = ∑ j ∈ Finset.range l.length, l.getD j 0 := by
  induction l with
  | nil => simp
  | cons a t ih =>
    rw [List.sum_cons, List.length_cons, Finset.sum_range_succ']
    have h1 : ∀ j ∈ Finset.range t.length,
        (a :: t).getD (j + 1) 0 = t.getD j 0 := fun j _ => rfl
    rw [Finset.sum_congr rfl h1, ← ih]
    show a + t.sum = t.sum + (a :: t).getD 0 0
    rw [add_comm]
    rfl

/-- The transmitted sample at an in-range index is the negated convolution
entry divided by the kernel sum. -/
lemma transmitted_getD_formula (time incident : List ℝ) (E ρ L g : ℝ) (i : ℕ)
    (h1 : i < (model_1d_core time incident E ρ L g).incidentClamped.length)
    (h2 : i < (convolve (model_1d_core time incident E ρ L g).kernel
        (model_1d_core time incident E ρ L g).incidentClamped).length) :
    (model_1d_core time incident E ρ L g).transmitted.getD i 0
      = -1 * ((convolve (model_1d_core time incident E ρ L g).kernel
            (model_1d_core time incident E ρ L g).incidentClamped).getD i 0)
        / (model_1d_core time incident E ρ L g).kernel.sum := by
  rw [core_transmitted, getD_map_take _ _ _ _ h1 h2]

end SumHelpers

/-- Scenario A time axis: 1000 samples at `dt = 10^-6` seconds. -/
noncomputable def timeA : List ℝ :=
  (List.range 1000).map fun i : ℕ => (i : ℝ) * 1e-6

/-- Scenario A incident signal: constant `-1` over 1000 samples. -/
def incidentA : List ℝ := List.replicate 1000 (-1)

/-- The model evaluated on Scenario A: `elastic_modulus = 70e9`,
`density = 2700`, `junction_length = 0.5`, `gage_distance = 0`. -/
noncomputable def outputA : ModelOutput :=
  model_1d_core timeA incidentA 7e10 2700 0.5 0

lemma outputA_eq : outputA = model_1d_core timeA incidentA 7e10 2700 0.5 0 := rfl

lemma outputA_clamped :
    outputA.incidentClamped = List.replicate 1000 (-1 : ℝ) := by
  rw [outputA_eq, core_incidentClamped]
  show (List.replicate 1000 (-1 : ℝ)).map _ = _
  rw [List.map_replicate, if_neg (by norm_num : ¬ ((0:ℝ) < -1))]

lemma getD_replicate_of_lt (n i : ℕ) (a : ℝ) (h : i < n) :
    (List.replicate n a).getD i 0 = a := by
  rw [List.getD_eq_getElem?_getD, List.getElem?_replicate, if_pos h]
  rfl

lemma timeA_length : timeA.length = 1000 := by
  unfold timeA
  rw [List.length_map, List.length_range]

lemma outputA_kernel_length : outputA.kernel.length = 1000 := by
  rw [outputA_eq, core_kernel, List.length_map, timeA_length]

lemma outputA_kernel_pos : ∀ x ∈ outputA.kernel, 0 < x := by
  rw [outputA_eq, core_kernel]
  intro x hx
  rcases List.mem_map.mp hx with ⟨s, _, rfl⟩
  exact div_pos (Real.exp_pos _)
    (div_pos (by norm_num) (Real.sqrt_pos.mpr (by norm_num)))

lemma outputA_kernel_sum_pos : 0 < outputA.kernel.sum :=
  List.sum_pos _ outputA_kernel_pos
    (List.length_pos.mp (by rw [outputA_kernel_length]; norm_num))

/-- The 1000th (last) convolution entry of Scenario A is the negated kernel
sum: every kernel tap meets an incident sample of value `-1`. -/
lemma outputA_conv999 :
    (convolve outputA.kernel outputA.incidentClamped).getD 999 0
      = -outputA.kernel.sum := by
  rw [convolve_getD _ _ 999
    (by rw [outputA_kernel_length, outputA_clamped, List.length_replicate]; norm_num)]
  have h1 : ∀ j ∈ Finset.range (999 + 1),
      outputA.kernel.getD j 0 * outputA.incidentClamped.getD (999 - j) 0
        = -(outputA.kernel.getD j 0) := by
    intro j hj
    have hj' : 999 - j < 1000 := by omega
    rw [outputA_clamped, getD_replicate_of_lt _ _ _ hj']
    ring
  rw [Finset.sum_congr rfl h1, Finset.sum_neg_distrib,
    list_sum_eq_sum_getD outputA.kernel, outputA_kernel_length]

/-- The last transmitted sample of Scenario A is exactly `+1`. -/
lemma outputA_transmitted999 : outputA.transmitted.getD 999 0 = 1 := by
  have h1 : 999 < outputA.incidentClamped.length := by
    rw [outputA_clamped, List.length_replicate]
    norm_num
  have h2 : 999 < (convolve outputA.kernel outputA.incidentClamped).length := by
    rw [convolve_length, outputA_kernel_length, outputA_clamped,
      List.length_replicate]
    norm_num
  have h3 := transmitted_getD_formula timeA incidentA 7e10 2700 0.5 0 999 h1 h2
  rw [← outputA_eq] at h3
  rw [h3, outputA_conv999]
  have hS := outputA_kernel_sum_pos
  field_simp

/-- The transmitted array of Scenario A has length 1000. -/
lemma outputA_transmitted_length : outputA.transmitted.length = 1000 := by
  rw [outputA_eq, core_transmitted, List.length_take, List.length_map,
    convolve_length, ← outputA_eq, outputA_kernel_length, outputA_clamped,
    List.length_replicate]
  omega

/-- The last reflected sample of Scenario A is exactly `0`. -/
lemma outputA_reflected999 : outputA.reflected.getD 999 0 = 0 := by
  have h1 : 999 < outputA.incidentClamped.length := by
    rw [outputA_clamped, List.length_replicate]
    norm_num
  have h2 : 999 < outputA.transmitted.length := by
    rw [outputA_transmitted_length]; norm_num
  rw [outputA_eq, core_reflected, ← outputA_eq,
    getD_zip_neg_add _ _ 999 h1 h2, outputA_transmitted999, outputA_clamped,
    List.getD_eq_getElem?_getD, List.getElem?_replicate,
    if_pos (by norm_num : (999:ℕ) < 1000)]
  norm_num

/-- C2 (amended): on Scenario A the transmitted wave converges to `+1`
(the final sample equals `1` exactly: the negation in
`transmitted = -conv(kernel, incident)/sum(kernel)` flips the sign of the
constant `-1` incident) and the reflected wave converges to `0` (the final
sample equals `0` exactly). -/
theorem scenarioA :
    outputA.transmitted.getD 999 0 = 1 ∧ outputA.reflected.getD 999 0 = 0 :=
  ⟨outputA_transmitted999, outputA_reflected999⟩

/-- C2 counterexample: the final transmitted sample of Scenario A is not
within distance `1` of `-1` (it equals `+1`), so the transmitted wave does
not converge to `-1.0` as the claim states. -/
theorem scenarioA_counterexample :
    ¬ (|outputA.transmitted.getD 999 0 - (-1)| < 1) := by
  rw [outputA_transmitted999]
  norm_num

end MillipedeBar
